import Mathlib

/-!
Verification of the bounded-concurrency multipart upload engine of the
objectslite code-snippets repository.

The definitions below are a shallow embedding of `ConcurrentMultipartUpload`
and `MultipartUpload` from the Go `utils/utils.go` (the Java
`Utils.ConcurrentMultipartUpload` agrees on all behaviour modelled here,
except where noted in individual theorems): the sequential read loop that
chunks the file, the per-part remote calls, the result-collection loop, the
sort of completed parts by part number, and the final complete call.

The three remote operations (initiate multipart upload, upload part,
complete multipart upload) are abstracted as an oracle (`Remote`).  The
nondeterministic order in which part results arrive on the result channel
`partCh` is an explicit parameter (`arrival`), universally quantified in the
theorems; the semaphore that bounds in-flight part uploads is modelled
separately as a labelled transition system (`PoolStep`).
-/

namespace ObjectsLite

/-- One part of the file: 1-based part number, byte offset, byte length
(the `bytesRead` of the corresponding read of the part-sized buffer). -/
structure Part where
  partNumber : Nat
  offset : Nat
  size : Nat
deriving DecidableEq, Repr

/-- The read loop shared by `MultipartUpload` and `ConcurrentMultipartUpload`:
starting at byte `pos` with next part number `i`, each iteration reads
`bytesRead = min partSize (fileSize - pos)` bytes into the part-sized buffer
and the loop stops when a read returns zero bytes (`if bytesRead == 0 break`).
Note the loop itself performs no `partSize` validation: `partSize = 0` makes
the very first read return zero bytes, producing no parts at all. -/
def chunksFrom (partSize fileSize pos i : Nat) : List Part :=
  if _h : min partSize (fileSize - pos) = 0 then []
  else
    { partNumber := i, offset := pos, size := min partSize (fileSize - pos) } ::
      chunksFrom partSize fileSize (pos + min partSize (fileSize - pos)) (i + 1)
termination_by fileSize - pos
decreasing_by omega

/-- The ordered part sequence produced for a file of `fileSize` bytes read in
`partSize`-byte chunks, starting at offset 0 with part number 1. -/
def chunks (fileSize partSize : Nat) : List Part :=
  chunksFrom partSize fileSize 0 1

/-- Closed form of the read loop: from position `pos` it produces
`ceil((fileSize - pos) / partSize)` parts, the `j`-th (0-based) covering
offset `pos + j * partSize`. -/
theorem chunksFrom_eq_map (partSize : Nat) (hp : 0 < partSize) :
    ∀ (n fileSize pos i : Nat), n = (fileSize - pos + partSize - 1) / partSize →
      chunksFrom partSize fileSize pos i =
        (List.range n).map (fun j =>
          { partNumber := i + j, offset := pos + j * partSize,
            size := min partSize (fileSize - (pos + j * partSize)) }) := by
  intro n
  induction n with
  | zero =>
    intro fileSize pos i hn
    have hr : fileSize - pos = 0 := by
      have h0 : fileSize - pos + partSize - 1 < partSize :=
        (Nat.div_eq_zero_iff hp).mp hn.symm
      omega
    rw [chunksFrom]
    simp [hr]
  | succ m ih =>
    intro fileSize pos i hn
    have hr : 0 < fileSize - pos := by
      by_contra hcon
      have hz : fileSize - pos = 0 := by omega
      rw [hz] at hn
      have : (0 + partSize - 1) / partSize = 0 :=
        (Nat.div_eq_zero_iff hp).mpr (by omega)
      omega
    have hmin : min partSize (fileSize - pos) ≠ 0 := by omega
    rw [chunksFrom, dif_neg hmin]
    rcases Nat.le_total partSize (fileSize - pos) with hle | hle
    · -- a full part of `partSize` bytes, followed by the remaining parts
      have hminl : min partSize (fileSize - pos) = partSize := by omega
      have hm : m = (fileSize - (pos + partSize) + partSize - 1) / partSize := by
        have h1 : fileSize - (pos + partSize) + partSize - 1 =
            fileSize - pos - 1 := by omega
        have h2 : fileSize - pos + partSize - 1 =
            (fileSize - pos - 1) + partSize := by omega
        rw [h2, Nat.add_div_right _ hp] at hn
        rw [h1]
        omega
      rw [hminl, ih fileSize (pos + partSize) (i + 1) hm,
        List.range_succ_eq_map, List.map_cons, List.map_map]
      congr 1
      · simp [hminl]
      · apply List.map_congr_left
        intro j _
        have hmul : (j + 1) * partSize = j * partSize + partSize :=
          Nat.succ_mul j partSize
        simp only [Function.comp, Part.mk.injEq, Nat.succ_eq_add_one]
        refine ⟨by omega, by omega, ?_⟩
        congr 1
        omega
    · -- the final short part: the tail of the loop produces nothing
      have hminr : min partSize (fileSize - pos) = fileSize - pos := by omega
      have hm0 : m = 0 := by
        have h1 : 1 * partSize ≤ fileSize - pos + partSize - 1 := by omega
        have h2 : fileSize - pos + partSize - 1 < (1 + 1) * partSize := by omega
        have := Nat.div_eq_of_lt_le h1 h2
        omega
      subst hm0
      have htail : chunksFrom partSize fileSize (pos + (fileSize - pos)) (i + 1) = [] := by
        rw [chunksFrom]
        exact dif_pos (by omega)
      rw [hminr, htail]
      have hone : List.range 1 = [0] := rfl
      rw [hone, List.map_cons, List.map_nil]
      congr 1
      simp only [Part.mk.injEq, Nat.add_zero, Nat.zero_mul]
      refine ⟨trivial, trivial, ?_⟩
      omega

/-- Closed form of the chunker. -/
theorem chunks_eq_map (fileSize partSize : Nat) (hp : 0 < partSize) :
    chunks fileSize partSize =
      (List.range ((fileSize + partSize - 1) / partSize)).map (fun j =>
        { partNumber := 1 + j, offset := j * partSize,
          size := min partSize (fileSize - j * partSize) }) := by
  unfold chunks
  rw [chunksFrom_eq_map partSize hp ((fileSize + partSize - 1) / partSize) fileSize 0 1
    (by rw [Nat.sub_zero])]
  simp

/-- Error taxonomy of the engine, read off the `fmt.Errorf` messages the Go
code returns: the `maxConcurrency` validation error, a failed initiate call,
a failed part upload (carrying the part number), and a failed complete call. -/
inductive UploadError where
  | invalidConfiguration (msg : String)
  | initiateFailed (msg : String)
  | partUploadFailed (partNumber : Nat) (msg : String)
  | completeFailed (msg : String)
deriving DecidableEq

/-- Result of one invocation of a Go upload function: a returned final ETag,
a returned error, a deadlock (the function never returns: every worker
goroutine blocks on the semaphore send and `range partCh` never ends), or a
runtime panic (`make` with a negative size). -/
inductive Outcome where
  | ok (etag : String)
  | err (e : UploadError)
  | diverges
  | panics
deriving DecidableEq

/-- A remote call performed by the engine, with the data that identifies it:
the part number and byte range for a part upload, and the submitted
completion manifest for a complete call. -/
inductive Event where
  | initiateCall
  | uploadPartCall (partNumber offset size : Nat)
  | completeCall (manifest : List (Nat × String))
deriving DecidableEq

/-- The abstract remote collaborator: results of `CreateMultipartUpload`, of
`UploadPart` (as a function of part number, offset and size), and of
`CompleteMultipartUpload` (as a function of the submitted manifest). -/
structure Remote where
  initiateResult : Except String String
  partResult : Nat → Nat → Nat → Except String String
  completeResult : List (Nat × String) → Except String String

/-- The Go `PartResult` record sent on `partCh` by each worker goroutine. -/
structure PartResult where
  partNumber : Nat
  etag : Option String
  err : Option String
deriving DecidableEq

/-- The body of one worker goroutine: invoke the remote `UploadPart` for its
part and wrap the response (or the error) in a `PartResult`. -/
def runPart (remote : Remote) (p : Part) : PartResult :=
  match remote.partResult p.partNumber p.offset p.size with
  | .ok tag => { partNumber := p.partNumber, etag := some tag, err := none }
  | .error e => { partNumber := p.partNumber, etag := none, err := some e }

/-- The collection loop `for partResult := range partCh`: results are
consumed in arrival order; the first result carrying an error makes the
function return a part-upload failure naming that part; otherwise each
`(partNumber, etag)` pair is appended to `completedParts`. -/
def collectParts : List PartResult → Except UploadError (List (Nat × String))
  | [] => .ok []
  | r :: rs =>
    match r.err with
    | some e => .error (.partUploadFailed r.partNumber e)
    | none =>
      match collectParts rs with
      | .error e => .error e
      | .ok acc => .ok ((r.partNumber, r.etag.getD "") :: acc)

/-- Comparison used by `sort.Slice(completedParts, ...)`: order manifest
entries by part number. -/
def manifestLE (a b : Nat × String) : Prop := a.1 ≤ b.1

instance : DecidableRel manifestLE := fun a b => Nat.decLe a.1 b.1

instance : IsTotal (Nat × String) manifestLE := ⟨fun a b => Nat.le_total a.1 b.1⟩

instance : IsTrans (Nat × String) manifestLE := ⟨fun _ _ _ => Nat.le_trans⟩

/-- The `sort.Slice` call that orders `completedParts` by part number.  On
lists with pairwise-distinct part numbers (the only lists the engine sorts)
every comparison sort produces the same output, so a concrete sort models it
exactly. -/
def sortCompletedParts (l : List (Nat × String)) : List (Nat × String) :=
  List.insertionSort manifestLE l

/-- Shallow embedding of the Go `ConcurrentMultipartUpload`, following the
source order of effects: validate `maxConcurrency > 8`; call the remote
initiate; create the result and semaphore channels (`make` panics on a
negative capacity); run the read loop, which spawns one goroutine per part
(a negative `partSize` makes `make([]byte, partSize)` panic; with
`maxConcurrency = 0` every spawned goroutine blocks forever on the
unbuffered semaphore, so a non-empty part list deadlocks); collect results
in channel-arrival order (`arrival`, a permutation of the parts); sort the
completed parts by part number; call the remote complete.  Returns the trace
of remote calls together with the outcome. -/
def concurrentMultipartUpload (remote : Remote) (fileSize : Nat)
    (partSize maxConcurrency : Int) (arrival : List Part) : List Event × Outcome :=
  if maxConcurrency > 8 then
    ([], .err (.invalidConfiguration "maxConcurrency should be less than or equal to 8"))
  else
    match remote.initiateResult with
    | .error e => ([.initiateCall], .err (.initiateFailed e))
    | .ok _uploadId =>
      if maxConcurrency < 0 then
        ([.initiateCall], .panics)
      else if partSize < 0 then
        ([.initiateCall], .panics)
      else
        let parts := chunks fileSize partSize.toNat
        if maxConcurrency = 0 ∧ parts ≠ [] then
          ([.initiateCall], .diverges)
        else
          let results := arrival.map (runPart remote)
          let trace := Event.initiateCall ::
            arrival.map (fun p => Event.uploadPartCall p.partNumber p.offset p.size)
          match collectParts results with
          | .error e => (trace, .err e)
          | .ok completed =>
            let sorted := sortCompletedParts completed
            match remote.completeResult sorted with
            | .ok etag => (trace ++ [.completeCall sorted], .ok etag)
            | .error e => (trace ++ [.completeCall sorted], .err (.completeFailed e))

/-- The sequential part-upload loop of the Go `MultipartUpload`: upload each
part in order, returning on the first failed part, otherwise appending
`(partNumber, etag)` to `completedParts` in part order.  Returns the trace of
part-upload calls and either the error or the accumulated manifest. -/
def seqParts (remote : Remote) :
    List Part → List Event × Except UploadError (List (Nat × String))
  | [] => ([], .ok [])
  | p :: ps =>
    match remote.partResult p.partNumber p.offset p.size with
    | .error e =>
      ([.uploadPartCall p.partNumber p.offset p.size],
        .error (.partUploadFailed p.partNumber e))
    | .ok tag =>
      let rest := seqParts remote ps
      (Event.uploadPartCall p.partNumber p.offset p.size :: rest.1,
        match rest.2 with
        | .error e => .error e
        | .ok l => .ok ((p.partNumber, tag) :: l))

/-- Shallow embedding of the sequential Go `MultipartUpload`: initiate, read
and upload the parts one at a time in part order (no concurrency, no sort),
then complete with the manifest in accumulation order. -/
def multipartUpload (remote : Remote) (fileSize : Nat) (partSize : Int) :
    List Event × Outcome :=
  match remote.initiateResult with
  | .error e => ([.initiateCall], .err (.initiateFailed e))
  | .ok _uploadId =>
    if partSize < 0 then ([.initiateCall], .panics)
    else
      let r := seqParts remote (chunks fileSize partSize.toNat)
      match r.2 with
      | .error e => (Event.initiateCall :: r.1, .err e)
      | .ok manifest =>
        match remote.completeResult manifest with
        | .ok etag =>
          (Event.initiateCall :: r.1 ++ [.completeCall manifest], .ok etag)
        | .error e =>
          (Event.initiateCall :: r.1 ++ [.completeCall manifest],
            .err (.completeFailed e))

/-- The manifests submitted to the remote complete operation, extracted from
a trace of remote calls. -/
def completeCalls (trace : List Event) : List (List (Nat × String)) :=
  trace.filterMap fun e =>
    match e with
    | .completeCall m => some m
    | _ => none

/-- Whether an outcome is the invalid-configuration error. -/
def isInvalidConfig : Outcome → Bool
  | .err (.invalidConfiguration _) => true
  | _ => false

/-- A remote collaborator on which every operation succeeds, used to
instantiate theorems at concrete inputs. -/
def sampleRemote : Remote where
  initiateResult := .ok "upload-id"
  partResult := fun _ _ _ => .ok "etag-a"
  completeResult := fun _ => .ok "final-etag"

/-- A remote collaborator whose initiate operation fails. -/
def initFailRemote : Remote where
  initiateResult := .error "initiate refused"
  partResult := fun _ _ _ => .ok "etag-a"
  completeResult := fun _ => .ok "final-etag"

/-- A remote collaborator on which exactly part 2 fails. -/
def part2FailRemote : Remote where
  initiateResult := .ok "upload-id"
  partResult := fun n _ _ => if n = 2 then .error "connection reset" else .ok "etag-a"
  completeResult := fun _ => .ok "final-etag"

/-- State of the worker pool: tasks that have not yet acquired a semaphore
slot, tasks holding a slot (their remote part upload may be in flight), and
tasks that have released their slot. -/
structure PoolState where
  waiting : Nat
  inFlight : Nat
  finished : Nat
deriving DecidableEq

/-- The semaphore protocol of the worker goroutines
(`semaphore <- struct{}{}` before the remote call, `<-semaphore` after): a
waiting task may acquire a slot only while fewer than `maxConcurrency` slots
are held — a send on a channel of capacity `maxConcurrency` succeeds only
while the channel holds fewer than `maxConcurrency` tokens — and a task
holding a slot may finish and release it. -/
inductive PoolStep (maxConcurrency : Nat) : PoolState → PoolState → Prop
  | acquire (w f d : Nat) : f < maxConcurrency →
      PoolStep maxConcurrency ⟨w + 1, f, d⟩ ⟨w, f + 1, d⟩
  | release (w f d : Nat) :
      PoolStep maxConcurrency ⟨w, f + 1, d⟩ ⟨w, f, d + 1⟩

/-- Pool states reachable from `init` by the semaphore protocol. -/
inductive PoolReachable (maxConcurrency : Nat) (init : PoolState) :
    PoolState → Prop
  | refl : PoolReachable maxConcurrency init init
  | step {s s' : PoolState} : PoolReachable maxConcurrency init s →
      PoolStep maxConcurrency s s' → PoolReachable maxConcurrency init s'

/-- An index `j` addresses a part exactly when its byte range starts inside
the file. -/
theorem chunk_index_lt_iff (fileSize partSize : Nat) (hp : 0 < partSize)
    (j : Nat) : j < (fileSize + partSize - 1) / partSize ↔ j * partSize < fileSize := by
  constructor
  · intro h
    have h1 : (j + 1) * partSize ≤ fileSize + partSize - 1 :=
      (Nat.le_div_iff_mul_le hp).mp h
    rw [Nat.succ_mul] at h1
    omega
  · intro h
    have h1 : (j + 1) * partSize ≤ fileSize + partSize - 1 := by
      rw [Nat.succ_mul]
      omega
    exact (Nat.le_div_iff_mul_le hp).mpr h1

/-- Membership characterisation of the chunker output. -/
theorem mem_chunks_iff (fileSize partSize : Nat) (hp : 0 < partSize) (p : Part) :
    p ∈ chunks fileSize partSize ↔
      ∃ j, j < (fileSize + partSize - 1) / partSize ∧
        p = { partNumber := 1 + j, offset := j * partSize,
              size := min partSize (fileSize - j * partSize) } := by
  rw [chunks_eq_map fileSize partSize hp]
  simp only [List.mem_map, List.mem_range]
  constructor
  · rintro ⟨j, hj, rfl⟩
    exact ⟨j, hj, rfl⟩
  · rintro ⟨j, hj, rfl⟩
    exact ⟨j, hj, rfl⟩

/-- C2: for every `fileSize ≥ 0` and `partSize > 0` the chunker produces
exactly `ceil(fileSize / partSize)` parts (zero when `fileSize = 0`); the
0-based `j`-th part has part number `j + 1`, offset `j * partSize` and
length `min partSize (fileSize - offset)`; and every byte `b < fileSize`
lies in exactly one part, so the parts are contiguous, non-overlapping and
cover exactly `[0, fileSize)`. -/
theorem chunker_partition (fileSize partSize : Nat) (hp : 0 < partSize) :
    (chunks fileSize partSize).length = (fileSize + partSize - 1) / partSize ∧
    (∀ j (hj : j < (chunks fileSize partSize).length),
      (chunks fileSize partSize).get ⟨j, hj⟩ =
        { partNumber := j + 1, offset := j * partSize,
          size := min partSize (fileSize - j * partSize) }) ∧
    (∀ b : Nat, b < fileSize ↔
      ∃! p : Part, p ∈ chunks fileSize partSize ∧
        p.offset ≤ b ∧ b < p.offset + p.size) := by
  have hce := chunks_eq_map fileSize partSize hp
  refine ⟨by rw [hce]; simp, ?_, ?_⟩
  · intro j hj
    rw [List.get_eq_getElem, List.getElem_of_eq hce hj]
    simp only [List.getElem_map, List.getElem_range, Part.mk.injEq]
    exact ⟨by omega, trivial, trivial⟩
  · intro b
    constructor
    · intro hb
      have hq1 := Nat.div_add_mod b partSize
      have hq2 := Nat.mod_lt b hp
      have hq3 : partSize * (b / partSize) = (b / partSize) * partSize :=
        Nat.mul_comm _ _
      have hoff : (b / partSize) * partSize ≤ b := by omega
      have hup : b < (b / partSize) * partSize + partSize := by omega
      have hjlt : b / partSize < (fileSize + partSize - 1) / partSize :=
        (chunk_index_lt_iff fileSize partSize hp _).mpr (by omega)
      refine ⟨Part.mk (1 + b / partSize) (b / partSize * partSize)
          (min partSize (fileSize - b / partSize * partSize)),
        ⟨(mem_chunks_iff fileSize partSize hp _).mpr ⟨b / partSize, hjlt, rfl⟩,
          hoff, by dsimp only; omega⟩, ?_⟩
      rintro p' ⟨hmem', hle', hlt'⟩
      obtain ⟨j', hj', rfl⟩ := (mem_chunks_iff fileSize partSize hp _).mp hmem'
      simp only at hle' hlt'
      have hj'up : b < j' * partSize + partSize := by omega
      have : b / partSize = j' :=
        Nat.div_eq_of_lt_le hle' (by rw [Nat.succ_mul]; omega)
      subst this
      rfl
    · rintro ⟨p, ⟨hmem, hle, hlt⟩, _⟩
      obtain ⟨j', hj', rfl⟩ := (mem_chunks_iff fileSize partSize hp _).mp hmem
      have hin : j' * partSize < fileSize :=
        (chunk_index_lt_iff fileSize partSize hp _).mp hj'
      simp only at hle hlt
      omega

/-- Witness for C2 at `fileSize = 5`, `partSize = 2` (three parts). -/
theorem chunker_partition_witness :
    0 < 2 ∧
      ((chunks 5 2).length = (5 + 2 - 1) / 2 ∧
      (∀ j (hj : j < (chunks 5 2).length),
        (chunks 5 2).get ⟨j, hj⟩ =
          { partNumber := j + 1, offset := j * 2, size := min 2 (5 - j * 2) }) ∧
      (∀ b : Nat, b < 5 ↔
        ∃! p : Part, p ∈ chunks 5 2 ∧ p.offset ≤ b ∧ b < p.offset + p.size)) :=
  ⟨by decide, chunker_partition 5 2 (by decide)⟩

/-- A zero-byte file chunks to no parts: the first read returns zero bytes. -/
theorem chunks_fileSize_zero (partSize : Nat) : chunks 0 partSize = [] := by
  rw [chunks, chunksFrom]
  simp

/-- A zero part size chunks to no parts: reading into an empty buffer
returns zero bytes at once, so the Go read loop breaks immediately. -/
theorem chunks_partSize_zero (fileSize : Nat) : chunks fileSize 0 = [] := by
  rw [chunks, chunksFrom]
  simp

/-- C4: for every `maxConcurrency > 8` the upload fails with the
invalid-configuration error before any remote call: the returned trace is
empty, so neither initiate nor upload-part nor complete is ever invoked and
the remote store is untouched. -/
theorem maxConcurrency_above_eight_rejected (remote : Remote) (fileSize : Nat)
    (partSize maxConcurrency : Int) (arrival : List Part)
    (h : maxConcurrency > 8) :
    concurrentMultipartUpload remote fileSize partSize maxConcurrency arrival =
      ([], .err (.invalidConfiguration
        "maxConcurrency should be less than or equal to 8")) := by
  rw [concurrentMultipartUpload, if_pos h]

/-- Witness for C4 at `maxConcurrency = 9`. -/
theorem maxConcurrency_above_eight_rejected_witness :
    (9 : Int) > 8 ∧
      concurrentMultipartUpload sampleRemote 5 2 9 [] =
        ([], .err (.invalidConfiguration
          "maxConcurrency should be less than or equal to 8")) :=
  ⟨by decide, maxConcurrency_above_eight_rejected sampleRemote 5 2 9 [] (by decide)⟩

/-- C8: if the remote initiate operation fails, the upload aborts
immediately with that error: the trace holds only the failed initiate call,
so no part upload and no complete is ever invoked and no remote session
exists. -/
theorem initiate_failure_aborts (remote : Remote) (fileSize : Nat)
    (partSize maxConcurrency : Int) (arrival : List Part) (e : String)
    (hmc : maxConcurrency ≤ 8) (hinit : remote.initiateResult = .error e) :
    concurrentMultipartUpload remote fileSize partSize maxConcurrency arrival =
      ([.initiateCall], .err (.initiateFailed e)) := by
  rw [concurrentMultipartUpload, if_neg (by omega), hinit]

/-- Witness for C8 on a remote whose initiate call is refused. -/
theorem initiate_failure_aborts_witness :
    (4 : Int) ≤ 8 ∧
      concurrentMultipartUpload initFailRemote 5 2 4 [] =
        ([.initiateCall], .err (.initiateFailed "initiate refused")) :=
  ⟨by decide, initiate_failure_aborts initFailRemote 5 2 4 [] "initiate refused"
    (by decide) rfl⟩

/-- C9: a zero-byte file with a valid configuration does not fail locally:
the session is initiated, zero part uploads are dispatched, and the remote
complete operation is invoked with the empty manifest, its result being
returned — the engine resolves the zero-length ambiguity as empty-manifest
completion. -/
theorem zero_byte_completes_empty_manifest (remote : Remote)
    (partSize maxConcurrency : Int) (arrival : List Part) (uid : String)
    (hinit : remote.initiateResult = .ok uid)
    (hmc0 : 0 ≤ maxConcurrency) (hmc8 : maxConcurrency ≤ 8) (hps : 0 ≤ partSize)
    (hperm : arrival.Perm (chunks 0 partSize.toNat)) :
    concurrentMultipartUpload remote 0 partSize maxConcurrency arrival =
      ([Event.initiateCall, Event.completeCall []],
        match remote.completeResult [] with
        | .ok t => Outcome.ok t
        | .error e => Outcome.err (.completeFailed e)) := by
  have hch : chunks 0 partSize.toNat = [] := chunks_fileSize_zero _
  have harr : arrival = [] := by
    rw [hch] at hperm
    exact hperm.eq_nil
  subst harr
  rw [concurrentMultipartUpload, if_neg (by omega), hinit]
  dsimp only
  rw [if_neg (by omega), if_neg (by omega), if_neg (by simp [hch])]
  rcases hcomp : remote.completeResult [] with e | t <;>
    simp [collectParts, sortCompletedParts, List.insertionSort, hcomp]

/-- Witness for C9: empty file, `partSize = 2`, `maxConcurrency = 3`. -/
theorem zero_byte_completes_empty_manifest_witness :
    (0 : Int) ≤ 3 ∧
      concurrentMultipartUpload sampleRemote 0 2 3 [] =
        ([Event.initiateCall, Event.completeCall []], .ok "final-etag") :=
  ⟨by decide, zero_byte_completes_empty_manifest sampleRemote 2 3 [] "upload-id"
    rfl (by decide) (by decide) (by decide)
    (by rw [chunks_fileSize_zero])⟩

/-- If no collected result carries an error, the collection loop succeeds
and keeps the `(partNumber, etag)` pairs in arrival order. -/
theorem collectParts_all_ok (results : List PartResult)
    (h : ∀ r ∈ results, r.err = none) :
    collectParts results =
      .ok (results.map fun r => (r.partNumber, r.etag.getD "")) := by
  induction results with
  | nil => rfl
  | cons r rs ih =>
    have hr : r.err = none := h r (by simp)
    have ih' := ih fun x hx => h x (by simp [hx])
    simp [collectParts, hr, ih']

/-- If some collected result carries an error and every errored result names
part `k`, the collection loop fails with a part-upload failure naming `k`. -/
theorem collectParts_error_to_k (results : List PartResult) (k : Nat)
    (hsome : ∃ r ∈ results, r.err ≠ none)
    (hk : ∀ r ∈ results, r.err ≠ none → r.partNumber = k) :
    ∃ msg, collectParts results = .error (.partUploadFailed k msg) := by
  induction results with
  | nil => simp at hsome
  | cons r rs ih =>
    cases hre : r.err with
    | some e =>
      have hknum := hk r (by simp) (by simp [hre])
      exact ⟨e, by simp [collectParts, hre, hknum]⟩
    | none =>
      obtain ⟨r', hr', herr⟩ := hsome
      have hr's : r' ∈ rs := by
        rcases List.mem_cons.mp hr' with h1 | h1
        · subst h1; exact absurd hre herr
        · exact h1
      obtain ⟨msg, hm⟩ := ih ⟨r', hr's, herr⟩ fun x hx hex => hk x (by simp [hx]) hex
      exact ⟨msg, by simp [collectParts, hre, hm]⟩

/-- Every error the collection loop returns is a part-upload failure. -/
theorem collectParts_error_shape (results : List PartResult) :
    ∀ e : UploadError, collectParts results = .error e →
      ∃ n msg, e = .partUploadFailed n msg := by
  induction results with
  | nil => intro e h; simp [collectParts] at h
  | cons r rs ih =>
    intro e h
    cases hre : r.err with
    | some s =>
      simp [collectParts, hre] at h
      exact ⟨r.partNumber, s, h.symm⟩
    | none =>
      cases hcoll : collectParts rs with
      | error e' =>
        obtain ⟨n, msg, rfl⟩ := ih e' hcoll
        simp [collectParts, hre, hcoll] at h
        exact ⟨n, msg, h.symm⟩
      | ok acc => simp [collectParts, hre, hcoll] at h

/-- The sequential part loop on an all-success remote uploads every part in
order and accumulates the manifest in part order. -/
theorem seqParts_all_ok (remote : Remote) (tag : Nat → String) :
    ∀ parts : List Part,
      (∀ p ∈ parts,
        remote.partResult p.partNumber p.offset p.size = .ok (tag p.partNumber)) →
      seqParts remote parts =
        (parts.map fun p => Event.uploadPartCall p.partNumber p.offset p.size,
          .ok (parts.map fun p => (p.partNumber, tag p.partNumber))) := by
  intro parts
  induction parts with
  | nil => intro _; rfl
  | cons p ps ih =>
    intro h
    have hp := h p (by simp)
    have ih' := ih fun q hq => h q (by simp [hq])
    simp [seqParts, hp, ih']

/-- Sorting a list that is a permutation of a strictly-ascending
target produces exactly that target: on pairwise-distinct keys the sorted
arrangement is unique. -/
theorem sortCompletedParts_eq_of_perm (l m : List (Nat × String))
    (hperm : l.Perm m)
    (hsorted : List.Pairwise (fun a b : Nat × String => a.1 < b.1) m) :
    sortCompletedParts l = m := by
  haveI : IsAntisymm (Nat × String) (fun a b : Nat × String => a.1 < b.1) :=
    ⟨fun a b h h' => absurd (Nat.lt_trans h h') (Nat.lt_irrefl _)⟩
  have h1 : (sortCompletedParts l).Perm m :=
    (List.perm_insertionSort manifestLE l).trans hperm
  have h2 : List.Pairwise manifestLE (sortCompletedParts l) :=
    List.sorted_insertionSort manifestLE l
  have hkeysm : (m.map Prod.fst).Nodup :=
    (List.pairwise_map).mpr (hsorted.imp fun h => Nat.ne_of_lt h)
  have hkeys : ((sortCompletedParts l).map Prod.fst).Nodup :=
    ((h1.map Prod.fst).nodup_iff).mpr hkeysm
  have hne : List.Pairwise (fun a b : Nat × String => a.1 ≠ b.1)
      (sortCompletedParts l) := (List.pairwise_map).mp hkeys
  have hstrict : List.Pairwise (fun a b : Nat × String => a.1 < b.1)
      (sortCompletedParts l) :=
    (h2.and hne).imp fun hab => Nat.lt_of_le_of_ne hab.1 hab.2
  exact List.eq_of_perm_of_sorted h1 hstrict hsorted

/-- Part numbers are strictly increasing along the chunker output. -/
theorem chunks_partNumber_strict (fileSize partSize : Nat) :
    List.Pairwise (fun p q : Part => p.partNumber < q.partNumber)
      (chunks fileSize partSize) := by
  rcases Nat.eq_zero_or_pos partSize with h0 | hp
  · subst h0
    rw [chunks_partSize_zero]
    exact List.Pairwise.nil
  · rw [chunks_eq_map fileSize partSize hp, List.pairwise_map]
    exact (List.pairwise_lt_range _).imp fun h => Nat.add_lt_add_left h 1

/-- Part uploads contribute no complete call to the trace. -/
theorem completeCalls_upload_map (arrival : List Part) :
    completeCalls (arrival.map fun p =>
      Event.uploadPartCall p.partNumber p.offset p.size) = [] := by
  induction arrival with
  | nil => rfl
  | cons p ps ih =>
    simp only [completeCalls, List.map_cons, List.filterMap_cons] at ih ⊢
    exact ih

/-- The complete calls of a success trace: exactly the one submitted
manifest. -/
theorem completeCalls_success_trace (arrival : List Part)
    (m : List (Nat × String)) :
    completeCalls (Event.initiateCall ::
      (arrival.map fun p => Event.uploadPartCall p.partNumber p.offset p.size) ++
      [Event.completeCall m]) = [m] := by
  have h := completeCalls_upload_map arrival
  simp only [completeCalls, List.filterMap_cons, List.filterMap_append] at h ⊢
  simp [h]

/-- The complete calls of a failure trace: none. -/
theorem completeCalls_failure_trace (arrival : List Part) :
    completeCalls (Event.initiateCall ::
      (arrival.map fun p => Event.uploadPartCall p.partNumber p.offset p.size)) = [] := by
  have h := completeCalls_upload_map arrival
  simp only [completeCalls, List.filterMap_cons] at h ⊢
  simp [h]

/-- Success-path reduction of `ConcurrentMultipartUpload`: with a valid
configuration, a successful initiate and every part upload succeeding, the
engine uploads exactly the chunked parts (in arbitrary arrival order) and
submits the manifest sorted back into ascending part-number order. -/
theorem conc_success_run (remote : Remote) (fileSize : Nat)
    (partSize maxConcurrency : Int) (arrival : List Part) (tag : Nat → String)
    (uid : String) (hinit : remote.initiateResult = .ok uid)
    (hmcpos : 0 < maxConcurrency) (hmc : maxConcurrency ≤ 8) (hps : 0 ≤ partSize)
    (hperm : arrival.Perm (chunks fileSize partSize.toNat))
    (hok : ∀ p ∈ chunks fileSize partSize.toNat,
      remote.partResult p.partNumber p.offset p.size = .ok (tag p.partNumber)) :
    concurrentMultipartUpload remote fileSize partSize maxConcurrency arrival =
      (Event.initiateCall ::
        (arrival.map fun p => Event.uploadPartCall p.partNumber p.offset p.size) ++
        [Event.completeCall ((chunks fileSize partSize.toNat).map
          fun p => (p.partNumber, tag p.partNumber))],
        match remote.completeResult ((chunks fileSize partSize.toNat).map
          fun p => (p.partNumber, tag p.partNumber)) with
        | .ok t => Outcome.ok t
        | .error e => Outcome.err (.completeFailed e)) := by
  have hrun : arrival.map (runPart remote) =
      arrival.map fun p => PartResult.mk p.partNumber (some (tag p.partNumber)) none :=
    List.map_congr_left fun p hp' => by
      simp [runPart, hok p (hperm.subset hp')]
  have hcoll : collectParts (arrival.map (runPart remote)) =
      .ok (arrival.map fun p => (p.partNumber, tag p.partNumber)) := by
    rw [hrun, collectParts_all_ok _ (by
      intro r hr
      obtain ⟨p, _, rfl⟩ := List.mem_map.mp hr
      rfl)]
    simp [List.map_map, Function.comp]
  have hsort : sortCompletedParts (arrival.map fun p => (p.partNumber, tag p.partNumber)) =
      (chunks fileSize partSize.toNat).map fun p => (p.partNumber, tag p.partNumber) := by
    apply sortCompletedParts_eq_of_perm
    · exact hperm.map _
    · rw [List.pairwise_map]
      exact (chunks_partNumber_strict fileSize partSize.toNat).imp fun h => h
  rw [concurrentMultipartUpload, if_neg (by omega), hinit]
  dsimp only
  rw [if_neg (by omega), if_neg (by omega),
    if_neg (by rintro ⟨h0, -⟩; omega)]
  rw [hcoll]
  dsimp only
  rw [hsort]
  rcases hcomp : remote.completeResult ((chunks fileSize partSize.toNat).map
      fun p => (p.partNumber, tag p.partNumber)) with e | t <;> simp [hcomp]

/-- C1: whenever every part upload succeeds, the manifest submitted to the
remote complete operation is strictly ascending in part number and holds
exactly one entry per dispatched part — for every arrival order of the part
results. -/
theorem conc_manifest_sorted_complete (remote : Remote) (fileSize : Nat)
    (partSize maxConcurrency : Int) (arrival : List Part) (tag : Nat → String)
    (uid : String) (hinit : remote.initiateResult = .ok uid)
    (hmcpos : 0 < maxConcurrency) (hmc : maxConcurrency ≤ 8) (hps : 0 ≤ partSize)
    (hperm : arrival.Perm (chunks fileSize partSize.toNat))
    (hok : ∀ p ∈ chunks fileSize partSize.toNat,
      remote.partResult p.partNumber p.offset p.size = .ok (tag p.partNumber)) :
    ∃ m, completeCalls (concurrentMultipartUpload remote fileSize partSize
        maxConcurrency arrival).1 = [m] ∧
      m.map Prod.fst = (chunks fileSize partSize.toNat).map Part.partNumber ∧
      List.Pairwise (fun a b : Nat × String => a.1 < b.1) m := by
  rw [conc_success_run remote fileSize partSize maxConcurrency arrival tag uid
    hinit hmcpos hmc hps hperm hok]
  refine ⟨(chunks fileSize partSize.toNat).map fun p => (p.partNumber, tag p.partNumber),
    completeCalls_success_trace _ _, ?_, ?_⟩
  · simp [List.map_map, Function.comp]
  · rw [List.pairwise_map]
    exact (chunks_partNumber_strict fileSize partSize.toNat).imp fun h => h

/-- Witness for C1: two parts arriving in reversed order. -/
theorem conc_manifest_sorted_complete_witness :
    (0 : Int) < 2 ∧
      ∃ m, completeCalls (concurrentMultipartUpload sampleRemote 3 2 2
          ((chunks 3 2).reverse)).1 = [m] ∧
        m.map Prod.fst = (chunks 3 2).map Part.partNumber ∧
        List.Pairwise (fun a b : Nat × String => a.1 < b.1) m :=
  ⟨by decide, conc_manifest_sorted_complete sampleRemote 3 2 2
    ((chunks 3 2).reverse) (fun _ => "etag-a") "upload-id" rfl (by decide)
    (by decide) (by decide) ((chunks 3 2).reverse_perm) (fun _ _ => rfl)⟩

/-- C3: if some part with part number `k` fails and every other part
succeeds, the upload fails with a part-upload error naming `k`, and the
remote complete operation is never invoked — no (partial) manifest is ever
submitted. -/
theorem part_failure_no_complete (remote : Remote) (fileSize : Nat)
    (partSize maxConcurrency : Int) (arrival : List Part) (k : Nat) (uid : String)
    (hinit : remote.initiateResult = .ok uid)
    (hmcpos : 0 < maxConcurrency) (hmc : maxConcurrency ≤ 8) (hps : 0 ≤ partSize)
    (hperm : arrival.Perm (chunks fileSize partSize.toNat))
    (hkmem : ∃ p ∈ chunks fileSize partSize.toNat, p.partNumber = k)
    (hfail : ∀ p ∈ chunks fileSize partSize.toNat, p.partNumber = k →
      ∃ e, remote.partResult p.partNumber p.offset p.size = .error e)
    (hok : ∀ p ∈ chunks fileSize partSize.toNat, p.partNumber ≠ k →
      ∃ t, remote.partResult p.partNumber p.offset p.size = .ok t) :
    (∃ msg, (concurrentMultipartUpload remote fileSize partSize maxConcurrency
        arrival).2 = .err (.partUploadFailed k msg)) ∧
    completeCalls (concurrentMultipartUpload remote fileSize partSize
        maxConcurrency arrival).1 = [] := by
  have hsome : ∃ r ∈ arrival.map (runPart remote), r.err ≠ none := by
    obtain ⟨p, hpmem, hpk⟩ := hkmem
    obtain ⟨e, he⟩ := hfail p hpmem hpk
    refine ⟨runPart remote p,
      List.mem_map_of_mem _ (hperm.mem_iff.mpr hpmem), ?_⟩
    simp [runPart, he]
  have hkall : ∀ r ∈ arrival.map (runPart remote), r.err ≠ none →
      r.partNumber = k := by
    intro r hr hrerr
    obtain ⟨p, hpmem, rfl⟩ := List.mem_map.mp hr
    have hpc := hperm.subset hpmem
    by_contra hne
    have hpk : p.partNumber ≠ k := by
      intro hh
      apply hne
      rcases hpr : remote.partResult p.partNumber p.offset p.size with e | t <;>
        simp [runPart, hpr] <;> exact hh
    obtain ⟨t, ht⟩ := hok p hpc hpk
    apply hrerr
    simp [runPart, ht]
  obtain ⟨msg, hcoll⟩ := collectParts_error_to_k _ k hsome hkall
  rw [concurrentMultipartUpload, if_neg (by omega), hinit]
  dsimp only
  rw [if_neg (by omega), if_neg (by omega), if_neg (by rintro ⟨h0, -⟩; omega)]
  rw [hcoll]
  exact ⟨⟨msg, rfl⟩, completeCalls_failure_trace _⟩

/-- Witness for C3: two parts, part 2 fails, part 1 succeeds. -/
theorem part_failure_no_complete_witness :
    (0 : Int) < 2 ∧
      ((∃ msg, (concurrentMultipartUpload part2FailRemote 2 1 2 (chunks 2 1)).2 =
          .err (.partUploadFailed 2 msg)) ∧
        completeCalls (concurrentMultipartUpload part2FailRemote 2 1 2
          (chunks 2 1)).1 = []) := by
  have hc : chunks 2 1 = [Part.mk 1 0 1, Part.mk 2 1 1] := by
    rw [chunks_eq_map 2 1 (by decide)]
    rfl
  refine ⟨by decide, part_failure_no_complete part2FailRemote 2 1 2 (chunks 2 1)
    2 "upload-id" rfl (by decide) (by decide) (by decide) (List.Perm.refl _)
    ?_ ?_ ?_⟩
  · rw [show Int.toNat 1 = 1 from rfl, hc]
    exact ⟨Part.mk 2 1 1, by simp, rfl⟩
  · rw [show Int.toNat 1 = 1 from rfl, hc]
    intro p hp hpk
    simp only [List.mem_cons, List.not_mem_nil, or_false] at hp
    rcases hp with rfl | rfl
    · exact absurd hpk (by decide)
    · exact ⟨"connection reset", rfl⟩
  · rw [show Int.toNat 1 = 1 from rfl, hc]
    intro p hp hpk
    simp only [List.mem_cons, List.not_mem_nil, or_false] at hp
    rcases hp with rfl | rfl
    · exact ⟨"etag-a", rfl⟩
    · exact absurd rfl hpk

/-- C10: on every input on which all part uploads succeed (with the same
per-part tags), the sequential and the concurrent engines submit identical
completion requests: the same part numbers in the same ascending order,
paired with the same tags, covering the same byte ranges produced by the
shared chunking loop. -/
theorem sequential_concurrent_same_completion (remote : Remote) (fileSize : Nat)
    (partSize maxConcurrency : Int) (arrival : List Part) (tag : Nat → String)
    (uid : String) (hinit : remote.initiateResult = .ok uid)
    (hmcpos : 0 < maxConcurrency) (hmc : maxConcurrency ≤ 8) (hps : 0 ≤ partSize)
    (hperm : arrival.Perm (chunks fileSize partSize.toNat))
    (hok : ∀ p ∈ chunks fileSize partSize.toNat,
      remote.partResult p.partNumber p.offset p.size = .ok (tag p.partNumber)) :
    completeCalls (multipartUpload remote fileSize partSize).1 =
      completeCalls (concurrentMultipartUpload remote fileSize partSize
        maxConcurrency arrival).1 ∧
    completeCalls (multipartUpload remote fileSize partSize).1 =
      [(chunks fileSize partSize.toNat).map fun p => (p.partNumber, tag p.partNumber)] := by
  have hseq : completeCalls (multipartUpload remote fileSize partSize).1 =
      [(chunks fileSize partSize.toNat).map fun p => (p.partNumber, tag p.partNumber)] := by
    rw [multipartUpload, hinit]
    dsimp only
    rw [if_neg (by omega), seqParts_all_ok remote tag _ hok]
    dsimp only
    rcases hcomp : remote.completeResult ((chunks fileSize partSize.toNat).map
        fun p => (p.partNumber, tag p.partNumber)) with e | t <;>
      rw [hcomp] <;> exact completeCalls_success_trace _ _
  have hconc : completeCalls (concurrentMultipartUpload remote fileSize partSize
      maxConcurrency arrival).1 =
      [(chunks fileSize partSize.toNat).map fun p => (p.partNumber, tag p.partNumber)] := by
    rw [conc_success_run remote fileSize partSize maxConcurrency arrival tag uid
      hinit hmcpos hmc hps hperm hok]
    exact completeCalls_success_trace _ _
  exact ⟨hseq.trans hconc.symm, hseq⟩

/-- Witness for C10: two parts, concurrent arrival reversed. -/
theorem sequential_concurrent_same_completion_witness :
    (0 : Int) < 1 ∧
      (completeCalls (multipartUpload sampleRemote 3 2).1 =
        completeCalls (concurrentMultipartUpload sampleRemote 3 2 1
          ((chunks 3 2).reverse)).1 ∧
      completeCalls (multipartUpload sampleRemote 3 2).1 =
        [(chunks 3 2).map fun p => (p.partNumber, "etag-a")]) :=
  ⟨by decide, sequential_concurrent_same_completion sampleRemote 3 2 1
    ((chunks 3 2).reverse) (fun _ => "etag-a") "upload-id" rfl (by decide)
    (by decide) (by decide) ((chunks 3 2).reverse_perm) (fun _ _ => rfl)⟩

/-- With `maxConcurrency <= 8` the engine can never return the
invalid-configuration error: the only configuration validation in the code
is the upper-bound check on `maxConcurrency`. -/
theorem conc_no_invalid_config_of_le (remote : Remote) (fileSize : Nat)
    (partSize maxConcurrency : Int) (arrival : List Part)
    (hmc : maxConcurrency ≤ 8) :
    isInvalidConfig (concurrentMultipartUpload remote fileSize partSize
      maxConcurrency arrival).2 = false := by
  rw [concurrentMultipartUpload, if_neg (by omega)]
  rcases hinit : remote.initiateResult with e | uid
  · rfl
  · dsimp only
    split
    · rfl
    · split
      · rfl
      · split
        · rfl
        · split
          · rename_i e heq
            obtain ⟨n, msg, rfl⟩ := collectParts_error_shape _ e heq
            rfl
          · split
            · rfl
            · rfl

/-- C5 counterexample: at `maxConcurrency = 0` (below the claimed lower
bound) on a two-part file, the upload does not fail with the
invalid-configuration error — the Go engine deadlocks instead. -/
theorem maxConcurrency_zero_not_invalid_config :
    (concurrentMultipartUpload sampleRemote 2 1 0 (chunks 2 1)).2 = .diverges ∧
      isInvalidConfig (concurrentMultipartUpload sampleRemote 2 1 0
        (chunks 2 1)).2 = false := by
  have hc : chunks 2 1 = [Part.mk 1 0 1, Part.mk 2 1 1] := by
    rw [chunks_eq_map 2 1 (by decide)]
    rfl
  have hmain : (concurrentMultipartUpload sampleRemote 2 1 0 (chunks 2 1)).2 =
      .diverges := by
    simp [concurrentMultipartUpload, sampleRemote, hc]
  exact ⟨hmain, by rw [hmain]; rfl⟩

/-- C5 amended: the coordinator validates only the upper bound
`maxConcurrency ≤ 8`; a value below 1 is not rejected with an
invalid-configuration error.  Instead, a negative value panics at channel
creation (after the initiate call), and zero deadlocks as soon as the file
has at least one part. -/
theorem maxConcurrency_below_one_not_rejected (remote : Remote) (fileSize : Nat)
    (partSize maxConcurrency : Int) (arrival : List Part) (uid : String)
    (hlow : maxConcurrency < 1) :
    isInvalidConfig (concurrentMultipartUpload remote fileSize partSize
      maxConcurrency arrival).2 = false ∧
    (maxConcurrency < 0 → remote.initiateResult = .ok uid →
      (concurrentMultipartUpload remote fileSize partSize maxConcurrency
        arrival).2 = .panics) ∧
    (maxConcurrency = 0 → 0 ≤ partSize → chunks fileSize partSize.toNat ≠ [] →
      remote.initiateResult = .ok uid →
      (concurrentMultipartUpload remote fileSize partSize maxConcurrency
        arrival).2 = .diverges) := by
  refine ⟨conc_no_invalid_config_of_le remote fileSize partSize maxConcurrency
    arrival (by omega), ?_, ?_⟩
  · intro hneg hinit
    rw [concurrentMultipartUpload, if_neg (by omega), hinit]
    dsimp only
    rw [if_pos hneg]
  · intro h0 hps hne hinit
    rw [concurrentMultipartUpload, if_neg (by omega), hinit]
    dsimp only
    rw [if_neg (by omega), if_neg (by omega), if_pos ⟨h0, hne⟩]

/-- Witness for the amended C5 at `maxConcurrency = 0` on a two-part file. -/
theorem maxConcurrency_below_one_not_rejected_witness :
    (0 : Int) < 1 ∧
      (isInvalidConfig (concurrentMultipartUpload sampleRemote 2 1 0
        (chunks 2 1)).2 = false ∧
      ((0 : Int) < 0 → sampleRemote.initiateResult = .ok "upload-id" →
        (concurrentMultipartUpload sampleRemote 2 1 0 (chunks 2 1)).2 = .panics) ∧
      ((0 : Int) = 0 → (0 : Int) ≤ 1 → chunks 2 (Int.toNat 1) ≠ [] →
        sampleRemote.initiateResult = .ok "upload-id" →
        (concurrentMultipartUpload sampleRemote 2 1 0 (chunks 2 1)).2 =
          .diverges)) :=
  ⟨by decide, maxConcurrency_below_one_not_rejected sampleRemote 2 1 0
    (chunks 2 1) "upload-id" (by decide)⟩

/-- C6 counterexample: at `partSize = 0` the upload does not fail with the
invalid-configuration error — the read loop yields zero parts and the engine
completes with an empty manifest, returning the final tag. -/
theorem partSize_zero_not_invalid_config :
    (concurrentMultipartUpload sampleRemote 10 0 5 []).2 = .ok "final-etag" ∧
      isInvalidConfig (concurrentMultipartUpload sampleRemote 10 0 5 []).2 =
        false := by
  have hc : chunks 10 (Int.toNat 0) = [] := chunks_partSize_zero 10
  have hmain : (concurrentMultipartUpload sampleRemote 10 0 5 []).2 =
      .ok "final-etag" := by
    simp [concurrentMultipartUpload, sampleRemote, hc, collectParts,
      sortCompletedParts, List.insertionSort]
  exact ⟨hmain, by rw [hmain]; rfl⟩

/-- C6 amended: the chunking step performs no `partSize` validation, so
`partSize ≤ 0` never yields an invalid-configuration error (given a valid
concurrency bound): the chunker produces zero parts, `partSize = 0` lets the
upload complete with an empty manifest, and a negative `partSize` makes the
Go code panic at buffer creation. -/
theorem partSize_nonpositive_not_rejected (remote : Remote) (fileSize : Nat)
    (partSize maxConcurrency : Int) (arrival : List Part) (uid : String)
    (hps : partSize ≤ 0) (hmc : maxConcurrency ≤ 8) :
    isInvalidConfig (concurrentMultipartUpload remote fileSize partSize
      maxConcurrency arrival).2 = false ∧
    chunks fileSize partSize.toNat = [] ∧
    (partSize < 0 → 0 ≤ maxConcurrency → remote.initiateResult = .ok uid →
      (concurrentMultipartUpload remote fileSize partSize maxConcurrency
        arrival).2 = .panics) := by
  refine ⟨conc_no_invalid_config_of_le remote fileSize partSize maxConcurrency
    arrival hmc, ?_, ?_⟩
  · have h0 : partSize.toNat = 0 := by omega
    rw [h0]
    exact chunks_partSize_zero fileSize
  · intro hneg hmc0 hinit
    rw [concurrentMultipartUpload, if_neg (by omega), hinit]
    dsimp only
    rw [if_neg (by omega), if_pos hneg]

/-- Witness for the amended C6 at `partSize = 0`. -/
theorem partSize_nonpositive_not_rejected_witness :
    (0 : Int) ≤ 0 ∧
      (isInvalidConfig (concurrentMultipartUpload sampleRemote 10 0 5 []).2 =
        false ∧
      chunks 10 (Int.toNat 0) = [] ∧
      ((0 : Int) < 0 → (0 : Int) ≤ 5 → sampleRemote.initiateResult = .ok "upload-id" →
        (concurrentMultipartUpload sampleRemote 10 0 5 []).2 = .panics)) :=
  ⟨by decide, partSize_nonpositive_not_rejected sampleRemote 10 0 5 []
    "upload-id" (by decide) (by decide)⟩

/-- C7: every pool state reachable from `n` dispatched tasks under the
semaphore protocol keeps at most `maxConcurrency` tasks holding a worker
slot, so at most `maxConcurrency` remote part uploads are in flight at any
instant — a task starts its upload only after acquiring a slot, and the
acquire step is enabled only while a slot is free. -/
theorem concurrency_bound_invariant (maxConcurrency n : Nat) (s : PoolState)
    (h : PoolReachable maxConcurrency ⟨n, 0, 0⟩ s) :
    s.inFlight ≤ maxConcurrency := by
  induction h with
  | refl => exact Nat.zero_le _
  | step hr hstep ih =>
    cases hstep with
    | acquire w f d hf => exact hf
    | release w f d => exact Nat.le_of_succ_le ih

/-- Witness for C7: three tasks, bound 2, one acquire step taken. -/
theorem concurrency_bound_invariant_witness :
    PoolReachable 2 ⟨3, 0, 0⟩ ⟨2, 1, 0⟩ ∧ (PoolState.mk 2 1 0).inFlight ≤ 2 :=
  have h : PoolReachable 2 ⟨3, 0, 0⟩ ⟨2, 1, 0⟩ :=
    PoolReachable.step PoolReachable.refl (PoolStep.acquire 2 0 0 (by decide))
  ⟨h, concurrency_bound_invariant 2 3 ⟨2, 1, 0⟩ h⟩

end ObjectsLite
